import Mathlib

/-!
Shallow embedding of the internships-scraper-bot pipeline.

`src/sources/github.js` exists in two variants: an HTML-table dialect and a
markdown-pipe dialect.  They are embedded as namespaces `GH` (HTML dialect)
and `GHMD` (markdown dialect).  `src/sheets.js` is embedded in namespace
`Sheets`, with the Google-Sheets store modelled as a list of rows
(association lists from column names to cell strings) and the two network
round trips recorded in an effect trace.

JavaScript regular expressions are embedded as deterministic scan functions
over `List Char`; each scan is annotated with the regex it transcribes.  The
regexes in the source consist of literals, greedy character-class runs and
lazy any-blocks whose continuations begin with literals; for such patterns
leftmost position scanning with first-occurrence continuation is exactly the
JS matching semantics (a later choice point can never succeed once the
earliest one fails, because every component search is a monotone
first-occurrence search).  Scanners that advance past a match carry an
explicit fuel argument, initialised to the input length (a bound on the
number of scan steps), so that every definition computes by kernel
reduction.
-/

set_option maxRecDepth 10000

/-- The JS `\s` character class, also used by `String.prototype.trim`. -/
def jsIsWS (c : Char) : Bool :=
  c == ' ' || c == '\t' || c == '\n' || c == '\r' || c.toNat == 0xB ||
  c.toNat == 0xC || c.toNat == 0xA0 || c.toNat == 0x1680 ||
  (0x2000 <= c.toNat && c.toNat <= 0x200A) ||
  c.toNat == 0x2028 || c.toNat == 0x2029 || c.toNat == 0x202F ||
  c.toNat == 0x205F || c.toNat == 0x3000 || c.toNat == 0xFEFF

/-- JS `String.prototype.trim`: drop `\s` characters from both ends. -/
def jsTrim (s : List Char) : List Char :=
  ((s.dropWhile jsIsWS).reverse.dropWhile jsIsWS).reverse

def jsTrimStr (s : String) : String := String.mk (jsTrim s.toList)

/-- Case-sensitive starts-with on character lists. -/
def csStarts : List Char → List Char → Bool
  | [], _ => true
  | _ :: _, [] => false
  | p :: ps, c :: cs => p == c && csStarts ps cs

/-- Case-insensitive starts-with, for the regexes carrying the `i` flag. -/
def ciStarts : List Char → List Char → Bool
  | [], _ => true
  | _ :: _, [] => false
  | p :: ps, c :: cs => p.toLower == c.toLower && ciStarts ps cs

/-- JS `String.prototype.includes`: case-sensitive substring test. -/
def containsSub (needle : List Char) : List Char → Bool
  | [] => csStarts needle []
  | c :: s => csStarts needle (c :: s) || containsSub needle s

def containsSubstr (hay needle : String) : Bool := containsSub needle.toList hay.toList

/-- Split at the first case-insensitive occurrence of `pat`:
`some (before, fromMatch)`, where `fromMatch` begins with the occurrence. -/
def splitAtCI (pat : List Char) : List Char → Option (List Char × List Char)
  | [] => if ciStarts pat [] then some ([], []) else none
  | c :: s =>
    if ciStarts pat (c :: s) then some ([], c :: s)
    else
      match splitAtCI pat s with
      | some (a, b) => some (c :: a, b)
      | none => none

/-- Fueled global replace: the matcher yields `(replacement, rest-after-match)`.
This is JS `replace(re, r)` with the `g` flag: leftmost scan, advancing past
each match (every matcher below consumes at least one character, so a fuel of
the input length never runs out). -/
def scanReplF (m : List Char → Option (List Char × List Char)) :
    Nat → List Char → List Char
  | _, [] => []
  | 0, s => s
  | fuel + 1, c :: s =>
    match m (c :: s) with
    | some (out, r) => out ++ scanReplF m fuel r
    | none => c :: scanReplF m fuel s

def scanRepl (m : List Char → Option (List Char × List Char)) (s : List Char) :
    List Char :=
  scanReplF m s.length s

/-- Fueled `matchAll`: collect the payloads of successive non-overlapping
matches, scanning left to right. -/
def scanAllF (m : List Char → Option (List Char × List Char)) :
    Nat → List Char → List (List Char)
  | _, [] => []
  | 0, _ => []
  | fuel + 1, c :: s =>
    match m (c :: s) with
    | some (cap, r) => cap :: scanAllF m fuel r
    | none => scanAllF m fuel s

def scanAll (m : List Char → Option (List Char × List Char)) (s : List Char) :
    List (List Char) :=
  scanAllF m s.length s

/-- Fueled `split(re)`: cut the input at each match of the matcher. -/
def scanSplitF (m : List Char → Option (List Char × List Char)) :
    Nat → List Char → List (List Char)
  | _, [] => [[]]
  | 0, s => [s]
  | fuel + 1, c :: s =>
    match m (c :: s) with
    | some (_, r) => [] :: scanSplitF m fuel r
    | none =>
      match scanSplitF m fuel s with
      | seg :: segs => (c :: seg) :: segs
      | [] => [[c]]

def scanSplit (m : List Char → Option (List Char × List Char)) (s : List Char) :
    List (List Char) :=
  scanSplitF m s.length s

/-- First match of a matcher, trying start positions left to right
(JS `match` without the `g` flag). -/
def scanFirst {α : Type} (m : List Char → Option α) : List Char → Option α
  | [] => m []
  | c :: s =>
    match m (c :: s) with
    | some r => some r
    | none => scanFirst m s

/-- Matcher for a literal `needle`, replacing it by `repl`
(JS `replace("needle", "repl")`-style global string replacement). -/
def litM (needle repl : List Char) (s : List Char) :
    Option (List Char × List Char) :=
  if !needle.isEmpty && csStarts needle s then some (repl, s.drop needle.length)
  else none

/-- Matcher for `<[^>]*>` (tag removal). -/
def tagM (s : List Char) : Option (List Char × List Char) :=
  match s with
  | '<' :: s1 =>
    let inner := s1.takeWhile (fun c => c != '>')
    match s1.drop inner.length with
    | '>' :: r => some ([], r)
    | _ => none
  | _ => none

/-- Matcher for `\s+`, replaced by a single space (whitespace collapsing). -/
def wsM (s : List Char) : Option (List Char × List Char) :=
  match s with
  | c :: _ => if jsIsWS c then some ([' '], s.dropWhile jsIsWS) else none
  | [] => none

/-- Matcher for `\[([^\]]+)\]\(([^)]+)\)`: a markdown link, yielding
`(link text, url, rest)`. -/
def mdLinkM (s : List Char) : Option (List Char × List Char × List Char) :=
  match s with
  | '[' :: s1 =>
    let t := s1.takeWhile (fun c => c != ']')
    if t.isEmpty then none
    else
      match s1.drop t.length with
      | ']' :: '(' :: s2 =>
        let u := s2.takeWhile (fun c => c != ')')
        if u.isEmpty then none
        else
          match s2.drop u.length with
          | ')' :: r => some (t, u, r)
          | _ => none
      | _ => none
  | _ => none

/-- `mdLinkM` specialised to replacement by the link text
(`replace(/\[([^\]]+)\]\([^)]+\)/g, "$1")`). -/
def mdLinkTextM (s : List Char) : Option (List Char × List Char) :=
  match mdLinkM s with
  | some (t, _, r) => some (t, r)
  | none => none

/-- Matcher for `\*\*([^*]+)\*\*`, replaced by the inner text. -/
def boldM (s : List Char) : Option (List Char × List Char) :=
  match s with
  | '*' :: '*' :: s1 =>
    let t := s1.takeWhile (fun c => c != '*')
    if t.isEmpty then none
    else
      match s1.drop t.length with
      | '*' :: '*' :: r => some (t, r)
      | _ => none
  | _ => none

/-- Matcher for `🛂|🇺🇸` (flag-glyph removal; the second glyph is the
two-codepoint regional-indicator pair). -/
def emojiM (s : List Char) : Option (List Char × List Char) :=
  match s with
  | c1 :: c2 :: r =>
    if c1 == '🛂' then some ([], c2 :: r)
    else if c1 == '🇺' && c2 == '🇸' then some ([], r)
    else none
  | c1 :: r => if c1 == '🛂' then some ([], r) else none
  | [] => none

/-- Matcher for the line-break separators `</br>|<br\s*\/?>|\n`
(with the `i` flag), used to split location cells. -/
def brM (s : List Char) : Option (List Char × List Char) :=
  if ciStarts ("</br>".toList) s then some ([], s.drop 5)
  else if ciStarts ("<br".toList) s then
    let s1 := s.drop 3
    let ws := s1.takeWhile jsIsWS
    match s1.drop ws.length with
    | '/' :: '>' :: r => some ([], r)
    | '>' :: r => some ([], r)
    | _ => none
  else
    match s with
    | '\n' :: r => some ([], r)
    | _ => none

/-- Matcher for `<a\s+href="([^"]+)"` (with the `i` flag), yielding the href. -/
def anchorHrefM (s : List Char) : Option (List Char × List Char) :=
  if ciStarts ("<a".toList) s then
    let s1 := s.drop 2
    let ws := s1.takeWhile jsIsWS
    if ws.isEmpty then none
    else
      let s2 := s1.drop ws.length
      if ciStarts ("href=\"".toList) s2 then
        let s3 := s2.drop 6
        let h := s3.takeWhile (fun c => c != '"')
        if h.isEmpty then none
        else
          match s3.drop h.length with
          | '"' :: r => some (h, r)
          | _ => none
      else none
  else none

/-- Matcher for `<a[^>]*>([^<]+)<\/a>` (with the `i` flag), yielding the
anchor text. -/
def anchorTextM (s : List Char) : Option (List Char × List Char) :=
  if ciStarts ("<a".toList) s then
    let s1 := s.drop 2
    let attrs := s1.takeWhile (fun c => c != '>')
    match s1.drop attrs.length with
    | '>' :: s2 =>
      let t := s2.takeWhile (fun c => c != '<')
      if t.isEmpty then none
      else if ciStarts ("</a>".toList) (s2.drop t.length) then
        some (t, (s2.drop t.length).drop 4)
      else none
    | _ => none
  else none

/-- Matcher for `<tr>\s*([\s\S]*?)\s*<\/tr>` (with the `gi` flags) as used via
`markdown.match(...)`: the payload is the whole matched row, from the opening
`<tr>` through the first following `</tr>`. -/
def trM (s : List Char) : Option (List Char × List Char) :=
  if ciStarts ("<tr>".toList) s then
    match splitAtCI ("</tr>".toList) (s.drop 4) with
    | some (mid, _) =>
      let n := 4 + mid.length + 5
      some (s.take n, s.drop n)
    | none => none
  else none

/-- Matcher for `<td>([\s\S]*?)<\/td>` (with the `gi` flags), yielding the
cell content between the tags. -/
def tdM (s : List Char) : Option (List Char × List Char) :=
  if ciStarts ("<td>".toList) s then
    match splitAtCI ("</td>".toList) (s.drop 4) with
    | some (mid, _) => some (mid, (s.drop 4).drop (mid.length + 5))
    | none => none
  else none

/-- Matcher for `<strong[^>]*>`, yielding the rest after the opening tag. -/
def strongOpenM (s : List Char) : Option (List Char × List Char) :=
  if ciStarts ("<strong".toList) s then
    let s1 := s.drop 7
    let attrs := s1.takeWhile (fun c => c != '>')
    match s1.drop attrs.length with
    | '>' :: r => some ([], r)
    | _ => none
  else none

/-- Matcher for `<strong>(\d+\s+locations)<\/strong>` (inside the `i`-flagged
details regex of the HTML dialect). -/
def numLocStrongM (s : List Char) : Option (List Char × List Char) :=
  if ciStarts ("<strong>".toList) s then
    let s1 := s.drop 8
    let ds := s1.takeWhile Char.isDigit
    if ds.isEmpty then none
    else
      let s2 := s1.drop ds.length
      let ws := s2.takeWhile jsIsWS
      if ws.isEmpty then none
      else
        let s3 := s2.drop ws.length
        if ciStarts ("locations</strong>".toList) s3 then some ([], s3.drop 18)
        else none
  else none

/-- Matcher for `\*\*(\d+\s+locations)\*\*` (inside the `i`-flagged details
regex of the markdown dialect). -/
def numLocStarsM (s : List Char) : Option (List Char × List Char) :=
  match s with
  | '*' :: '*' :: s1 =>
    let ds := s1.takeWhile Char.isDigit
    if ds.isEmpty then none
    else
      let s2 := s1.drop ds.length
      let ws := s2.takeWhile jsIsWS
      if ws.isEmpty then none
      else
        let s3 := s2.drop ws.length
        if ciStarts ("locations**".toList) s3 then some ([], s3.drop 11)
        else none
  | _ => none

/-- `replace(/<[^>]*>/g, "")`. -/
def stripTags (s : List Char) : List Char := scanRepl tagM s

/-- Global replacement of a literal substring. -/
def replaceLit (needle repl : String) (s : List Char) : List Char :=
  scanRepl (litM needle.toList repl.toList) s

/-- All hrefs found by `matchAll(/<a\s+href="([^"]+)"/gi)`, in order. -/
def anchorHrefs (cell : String) : List String :=
  (scanAll anchorHrefM cell.toList).map String.mk

/-- First match of `/<a\s+href="([^"]+)"/i`, i.e. the head of `anchorHrefs`. -/
def firstAnchorHref (cell : String) : Option String :=
  (anchorHrefs cell).head?

/-- First match of `/<a[^>]*>([^<]+)<\/a>/i`: the anchor text. -/
def firstAnchorText (cell : String) : Option String :=
  (scanFirst anchorTextM cell.toList).map (fun p => String.mk p.1)

/-- First match of `/\[([^\]]+)\]\(([^)]+)\)/`: `(text, url)`. -/
def firstMdLink (cell : String) : Option (String × String) :=
  (scanFirst mdLinkM cell.toList).map (fun p => (String.mk p.1, String.mk p.2.1))

/-- First match of the `i`-flagged
`/<strong[^>]*>[\s\S]*?<a[^>]*>([^<]+)<\/a>[\s\S]*?<\/strong>/`: the first
strong-open tag, the first full anchor after it, and a closing `</strong>`
somewhere after that anchor (first-occurrence nesting is exact here, see the
header comment). -/
def strongAnchorText (cell : String) : Option String :=
  match scanFirst strongOpenM cell.toList with
  | none => none
  | some (_, afterOpen) =>
    match scanFirst anchorTextM afterOpen with
    | none => none
    | some (t, afterAnchor) =>
      match splitAtCI ("</strong>".toList) afterAnchor with
      | some _ => some (String.mk t)
      | none => none

/-- The group-2 capture of the `<details>` regex:
`<details>[\s\S]*?<summary>[\s\S]*?M[\s\S]*?<\/summary>([\s\S]*?)<\/details>`
where `M` is the dialect's "N locations" marker matcher.  All quantifiers are
lazy, so each component is the first occurrence after the previous one. -/
def detailsInner (numLocM : List Char → Option (List Char × List Char))
    (cell : List Char) : Option (List Char) :=
  match splitAtCI ("<details>".toList) cell with
  | none => none
  | some (_, atD) =>
    match splitAtCI ("<summary>".toList) (atD.drop 9) with
    | none => none
    | some (_, atSum) =>
      match scanFirst numLocM (atSum.drop 9) with
      | none => none
      | some (_, afterNum) =>
        match splitAtCI ("</summary>".toList) afterNum with
        | none => none
        | some (_, atCloseSum) =>
          match splitAtCI ("</details>".toList) (atCloseSum.drop 10) with
          | none => none
          | some (inner, _) => some inner

/-- `href.split("?utm_source")[0]`: the prefix before the first occurrence of
the tracking marker (the whole string when the marker is absent). -/
def utmCut : List Char → List Char
  | [] => []
  | c :: s =>
    if csStarts ("?utm_source".toList) (c :: s) then [] else c :: utmCut s

def stripUtm (link : String) : String := String.mk (utmCut link.toList)

/-- JS `split("|")`. -/
def splitPipe : List Char → List (List Char)
  | [] => [[]]
  | '|' :: s => [] :: splitPipe s
  | c :: s =>
    match splitPipe s with
    | seg :: segs => (c :: seg) :: segs
    | [] => [[c]]

/-- JS `split("\n")`. -/
def splitNl : List Char → List (List Char)
  | [] => [[]]
  | '\n' :: s => [] :: splitNl s
  | c :: s =>
    match splitNl s with
    | seg :: segs => (c :: seg) :: segs
    | [] => [[c]]

/-- JS `toLowerCase`, restricted to the ASCII mapping; it agrees with the
source's `toLowerCase` on the ASCII keyword and location constants. -/
def jsToLower (s : String) : String := String.mk (s.toList.map Char.toLower)

/-- An apostrophe character, written via its code point. -/
def apos : Char := Char.ofNat 39

/-- The one-character apostrophe string (the replacement for `&apos;`). -/
def aposStr : String := String.mk [apos]

/-- The record produced per accepted table row (`internships.push({...})`). -/
structure Job where
  company : String
  role : String
  location : String
  link : String
  datePosted : String
  source : String
deriving DecidableEq

/-- `ROLE_KEYWORDS` (identical in both variants of `github.js`). -/
def ROLE_KEYWORDS : List String := ["Software", "Engineer"]

/-- `ALLOWED_LOCATIONS` (identical in both variants of `github.js`). -/
def ALLOWED_LOCATIONS : List String :=
  ["New York", "San Francisco", "Boston", "Houston", "Remote"]

/-- `filterInternships` (identical in both variants of `github.js`): keep the
records whose role contains some keyword and whose location contains some
allowed location, both case-insensitively. -/
def filterInternships (internships : List Job) : List Job :=
  internships.filter (fun i =>
    (ROLE_KEYWORDS.any (fun kw =>
      containsSubstr (jsToLower i.role) (jsToLower kw))) &&
    (ALLOWED_LOCATIONS.any (fun loc =>
      containsSubstr (jsToLower i.location) (jsToLower loc))))

/-- The row loop of `parseMarkdownTable`, as a fold over the per-row step with
the `lastCompany` accumulator threaded through (the step returns the updated
accumulator and the optionally emitted record). -/
def runRows (step : String → List String → String × Option Job) :
    String → List (List String) → List Job
  | _, [] => []
  | st, cells :: rows =>
    match step st cells with
    | (st2, none) => runRows step st2 rows
    | (st2, some j) => j :: runRows step st2 rows

/-- The `lastCompany` accumulator after folding the per-row step over rows. -/
def runState (step : String → List String → String × Option Job) :
    String → List (List String) → String
  | st, [] => st
  | st, cells :: rows => runState step (step st cells).1 rows

namespace GH

/-- `cleanText` of the HTML dialect: strip tags, decode the four entities
`&amp; &lt; &gt; &nbsp;`, collapse `\s+` runs to one space, trim. -/
def cleanText (text : String) : String :=
  let s1 := stripTags text.toList
  let s2 := replaceLit "&amp;" "&" s1
  let s3 := replaceLit "&lt;" "<" s2
  let s4 := replaceLit "&gt;" ">" s3
  let s5 := replaceLit "&nbsp;" " " s4
  let s6 := scanRepl wsM s5
  String.mk (jsTrim s6)

/-- `extractCompanyName` of the HTML dialect: the continuation arrow is kept
verbatim; otherwise the first anchor text, else the strong-wrapped anchor
text, else the cleaned raw cell. -/
def extractCompanyName (cellContent : String) : String :=
  if jsTrimStr cellContent = "↳" then "↳"
  else
    match firstAnchorText cellContent with
    | some t => cleanText t
    | none =>
      match strongAnchorText cellContent with
      | some t => cleanText t
      | none => cleanText cellContent

/-- `extractLocation` of the HTML dialect: the details-block content when the
`<strong>N locations</strong>` collapsible matches, else the raw cell; split
on line-break markers, clean, drop empties, join with a comma. -/
def extractLocation (cellContent : String) : String :=
  let parts :=
    match detailsInner numLocStrongM cellContent.toList with
    | some inner => scanSplit brM inner
    | none => scanSplit brM cellContent.toList
  String.intercalate ", "
    (((parts.map (fun p => cleanText (String.mk p)))).filter
      (fun l => decide (0 < l.length)))

/-- The `for (const match of linkMatches)` loop of the HTML dialect's
`extractApplicationLink`: return the first href that does not contain
`simplify.jobs`, with the `?utm_source` suffix stripped. -/
def pickHref : List String → Option String
  | [] => none
  | h :: hs =>
    if !(containsSubstr h "simplify.jobs") then some (stripUtm h)
    else pickHref hs

/-- `extractApplicationLink` of the HTML dialect: first non-simplify href
(utm-stripped), else the first href of any kind (verbatim), else empty. -/
def extractApplicationLink (cellContent : String) : String :=
  match pickHref (anchorHrefs cellContent) with
  | some r => r
  | none =>
    match anchorHrefs cellContent with
    | h :: _ => h
    | [] => ""

/-- The body of the HTML dialect's row loop, given the current `lastCompany`
and the extracted cells.  The updated `lastCompany` coincides with the
emitted company in both branches of the source's continuation handling, so a
single value is returned for both. -/
def processCells (lastCompany : String) (cells : List String) :
    String × Option Job :=
  if cells.length < 4 then (lastCompany, none)
  else
    let company0 := extractCompanyName (cells.getD 0 "")
    let company := if company0 = "↳" ∨ company0 = "" then lastCompany else company0
    let role := cleanText (cells.getD 1 "")
    let location := extractLocation (cells.getD 2 "")
    let link := extractApplicationLink (cells.getD 3 "")
    let datePosted := if cells.getD 4 "" ≠ "" then cleanText (cells.getD 4 "") else ""
    if company = "" ∨ role = "" ∨ link = "" ∨ link = "🔒" then (company, none)
    else (company, some ⟨company, role, location, link, datePosted, "GitHub"⟩)

/-- The rows fed to the row loop: all `<tr>…</tr>` spans that do not contain
a `<th>` (header) tag, each reduced to its list of trimmed `<td>` cells. -/
def rowsOf (markdown : String) : List (List String) :=
  ((scanAll trM markdown.toList).map String.mk).filter
    (fun row => !(containsSubstr row "<th>"))
  |>.map (fun row => (scanAll tdM row.toList).map (fun cs => String.mk (jsTrim cs)))

/-- `parseMarkdownTable` of the HTML dialect. -/
def parseMarkdownTable (markdown : String) : List Job :=
  runRows processCells "" (rowsOf markdown)

/-- The company value a row yields before continuation handling. -/
def extractedCompany (cells : List String) : String :=
  extractCompanyName (cells.getD 0 "")

/-- Whether a row is a continuation row (arrow marker or empty extraction). -/
def isCont (cells : List String) : Bool :=
  extractedCompany cells == "↳" || extractedCompany cells == ""

/-- The nearest preceding non-continuation company in document order: the
extracted company of the last preceding row that has at least four cells and
is not a continuation row (the empty string when there is none). -/
def lastNonCont (rows : List (List String)) : String :=
  match rows.reverse.find? (fun c => decide (4 ≤ c.length) && !isCont c) with
  | some c => extractedCompany c
  | none => ""

end GH

namespace GHMD

/-- `cleanText` of the markdown dialect: strip tags, convert markdown links
and bold to plain text, decode `&amp; &lt; &gt; &nbsp; &apos;`, remove the
`🛂`/`🇺🇸` glyphs, collapse `\s+` runs, trim. -/
def cleanText (text : String) : String :=
  let s1 := stripTags text.toList
  let s2 := scanRepl mdLinkTextM s1
  let s3 := scanRepl boldM s2
  let s4 := replaceLit "&amp;" "&" s3
  let s5 := replaceLit "&lt;" "<" s4
  let s6 := replaceLit "&gt;" ">" s5
  let s7 := replaceLit "&nbsp;" " " s6
  let s8 := replaceLit "&apos;" aposStr s7
  let s9 := scanRepl emojiM s8
  let s10 := scanRepl wsM s9
  String.mk (jsTrim s10)

/-- `extractCompanyName` of the markdown dialect: the continuation arrow is
kept verbatim; otherwise the first anchor text, else the first markdown-link
text, else the cleaned raw cell. -/
def extractCompanyName (cellContent : String) : String :=
  if jsTrimStr cellContent = "↳" then "↳"
  else
    match firstAnchorText cellContent with
    | some t => cleanText t
    | none =>
      match firstMdLink cellContent with
      | some (t, _) => cleanText t
      | none => cleanText cellContent

/-- `extractLocation` of the markdown dialect (the `**N locations**` marker
variant of the details regex). -/
def extractLocation (cellContent : String) : String :=
  let parts :=
    match detailsInner numLocStarsM cellContent.toList with
    | some inner => scanSplit brM inner
    | none => scanSplit brM cellContent.toList
  String.intercalate ", "
    (((parts.map (fun p => cleanText (String.mk p)))).filter
      (fun l => decide (0 < l.length)))

/-- `extractApplicationLink` of the markdown dialect: the lock sentinel when
the cell contains it; else the first HTML anchor href, else the first
markdown-link url, both utm-stripped; else empty. -/
def extractApplicationLink (cellContent : String) : String :=
  if containsSubstr cellContent "🔒" then "🔒"
  else
    match firstAnchorHref cellContent with
    | some h => stripUtm h
    | none =>
      match firstMdLink cellContent with
      | some (_, url) => stripUtm url
      | none => ""

/-- The body of the markdown dialect's row loop (same continuation handling
as the HTML dialect; the acceptance guard additionally rejects any row whose
application cell contains the lock sentinel). -/
def processCells (lastCompany : String) (cells : List String) :
    String × Option Job :=
  if cells.length < 4 then (lastCompany, none)
  else
    let company0 := extractCompanyName (cells.getD 0 "")
    let company := if company0 = "↳" ∨ company0 = "" then lastCompany else company0
    let role := cleanText (cells.getD 1 "")
    let location := extractLocation (cells.getD 2 "")
    let link := extractApplicationLink (cells.getD 3 "")
    let datePosted := if cells.getD 4 "" ≠ "" then cleanText (cells.getD 4 "") else ""
    if company = "" ∨ role = "" ∨ link = "" ∨ link = "🔒" ∨
        containsSubstr (cells.getD 3 "") "🔒" then (company, none)
    else (company, some ⟨company, role, location, link, datePosted, "GitHub"⟩)

/-- `line.includes("| Company") && line.includes("| Role")`. -/
def headerLine (l : String) : Bool :=
  containsSubstr l "| Company" && containsSubstr l "| Role"

/-- `line.match(/^\|\s*[-:]+\s*\|/)`: a pipe, optional whitespace, at least
one dash or colon, optional whitespace, a pipe. -/
def separatorLine (l : String) : Bool :=
  match l.toList with
  | '|' :: s =>
    let s1 := s.dropWhile jsIsWS
    let ds := s1.takeWhile (fun c => c == '-' || c == ':')
    if ds.isEmpty then false
    else
      match (s1.drop ds.length).dropWhile jsIsWS with
      | '|' :: _ => true
      | _ => false
  | _ => false

/-- `line.startsWith("|")`. -/
def pipeStart (l : String) : Bool :=
  match l.toList with
  | '|' :: _ => true
  | _ => false

/-- `line.split("|").map(trim).filter(nonempty)`. -/
def mdCells (l : String) : List String :=
  ((splitPipe l.toList).map (fun cs => String.mk (jsTrim cs))).filter
    (fun c => decide (0 < c.length))

/-- The line loop of the markdown dialect's `parseMarkdownTable`, with the
`lastCompany` and `inTable` mutable variables as explicit state; the branch
order matches the source (header detection, separator skip, break on leaving
the table, skip outside the table, row parsing). -/
def parseLines : String → Bool → List String → List Job
  | _, _, [] => []
  | lastCompany, inTable, l :: ls =>
    if headerLine l then parseLines lastCompany true ls
    else if separatorLine l then parseLines lastCompany inTable ls
    else if inTable && !pipeStart l then []
    else if !inTable || !pipeStart l then parseLines lastCompany inTable ls
    else
      match processCells lastCompany (mdCells l) with
      | (lc, none) => parseLines lc inTable ls
      | (lc, some j) => j :: parseLines lc inTable ls

/-- `parseMarkdownTable` of the markdown dialect. -/
def parseMarkdownTable (markdown : String) : List Job :=
  parseLines "" false ((splitNl markdown.toList).map String.mk)

/-- The cell lists of exactly those lines that reach the row-parsing branch
of `parseLines`, in order (used to relate the line loop to `runRows`). -/
def mdTableRows : Bool → List String → List (List String)
  | _, [] => []
  | inTable, l :: ls =>
    if headerLine l then mdTableRows true ls
    else if separatorLine l then mdTableRows inTable ls
    else if inTable && !pipeStart l then []
    else if !inTable || !pipeStart l then mdTableRows inTable ls
    else mdCells l :: mdTableRows inTable ls

/-- The company value a row yields before continuation handling. -/
def extractedCompany (cells : List String) : String :=
  extractCompanyName (cells.getD 0 "")

/-- Whether a row is a continuation row (arrow marker or empty extraction). -/
def isCont (cells : List String) : Bool :=
  extractedCompany cells == "↳" || extractedCompany cells == ""

/-- The nearest preceding non-continuation company in document order. -/
def lastNonCont (rows : List (List String)) : String :=
  match rows.reverse.find? (fun c => decide (4 ≤ c.length) && !isCont c) with
  | some c => extractedCompany c
  | none => ""

end GHMD

namespace Sheets

/-- A persisted spreadsheet row: column name to cell value. -/
abbrev Row := List (String × String)

/-- `row.get(name)`: `none` models JS `undefined` for an absent column. -/
def rowGet (r : Row) (k : String) : Option String :=
  match r with
  | [] => none
  | (k2, v) :: rest => if k2 = k then some v else rowGet rest k

/-- JS truthiness of a possibly-undefined string: `undefined` and the empty
string are falsy. -/
def truthy : Option String → Bool
  | some s => !(s == "")
  | none => false

/-- JS `a || b` on possibly-undefined strings. -/
def jsOr (a b : Option String) : Option String := if truthy a then a else b

/-- The alias column names tried for the link, in source order. -/
def linkAliases : List String :=
  ["Application Link", "Link", "link", "URL", "url"]

/-- The `row.get("Application Link") || row.get("Link") || row.get("link") ||
row.get("URL") || row.get("url")` chain. -/
def chainLink (r : Row) : Option String :=
  jsOr (rowGet r "Application Link") (jsOr (rowGet r "Link")
    (jsOr (rowGet r "link") (jsOr (rowGet r "URL") (rowGet r "url"))))

/-- The `existingLinks` set: for each row the `||`-chain value, added only
when truthy (`if (link) existingLinks.add(link)`); membership in this list
is the set membership used for deduplication. -/
def existingLinks : List Row → List String
  | [] => []
  | r :: rs =>
    match chainLink r with
    | some s => if s = "" then existingLinks rs else s :: existingLinks rs
    | none => existingLinks rs

/-- The first alias whose value in the row is present and non-empty (the
behaviour the `||`-chain actually implements). -/
def firstNonEmptyAlias (r : Row) : Option String :=
  linkAliases.findSome? (fun k =>
    match rowGet r k with
    | some v => if v = "" then none else some v
    | none => none)

/-- The first alias present in the row regardless of its value (the reading
in which an empty string would be taken; used to state claim C7). -/
def firstAliasValue (r : Row) : Option String :=
  linkAliases.findSome? (fun k => rowGet r k)

/-- The row appended for a new job (`rowsToAdd`); `today` stands for
`new Date().toISOString().split("T")[0]`, the calendar date at write time,
and a missing `datePosted` is already the empty string in the model
(mirroring `job.datePosted || ""`). -/
def jobToRow (today : String) (j : Job) : Row :=
  [("Company", j.company), ("Role", j.role), ("Location", j.location),
   ("Application Link", j.link), ("Date Posted", j.datePosted),
   ("Source", j.source), ("Date Added", today)]

/-- Store effects performed by `addToSheet`: one bulk read (`getRows`) and
one bulk append (`addRows`). -/
inductive Effect where
  | getRows : Effect
  | addRows : List Row → Effect
deriving DecidableEq

/-- Result of `addToSheet`: the store afterwards, the returned counts, and
the trace of store operations performed. -/
structure Outcome where
  store : List Row
  added : Nat
  duplicates : Nat
  effects : List Effect
deriving DecidableEq

/-- `addToSheet` of `sheets.js`: an empty input returns immediately without
touching the store; otherwise the existing rows are read, the input is
filtered against the existing-link set, and the remaining jobs (if any) are
appended, one row per job. -/
def addToSheet (store : List Row) (jobs : List Job) (today : String) :
    Outcome :=
  if jobs.length = 0 then ⟨store, 0, 0, []⟩
  else
    let existing := existingLinks store
    let newJobs := jobs.filter (fun j => !(existing.contains j.link))
    let dups := jobs.length - newJobs.length
    if newJobs.length = 0 then ⟨store, 0, dups, [Effect.getRows]⟩
    else
      ⟨store ++ newJobs.map (jobToRow today), newJobs.length, dups,
        [Effect.getRows, Effect.addRows (newJobs.map (jobToRow today))]⟩

end Sheets

theorem Sheets.existingLinks_append (a b : List Sheets.Row) :
    Sheets.existingLinks (a ++ b) =
      Sheets.existingLinks a ++ Sheets.existingLinks b := by
  induction a with
  | nil => rfl
  | cons r rs ih =>
    simp only [List.cons_append, Sheets.existingLinks]
    cases hc : Sheets.chainLink r with
    | none => exact ih
    | some s =>
      by_cases hs : s = ""
      · simp [hs, ih]
      · simp [hs, ih]

/-- Claim C9: with an empty job list, `addToSheet` returns zero counts,
leaves the store unchanged, and performs no store reads or writes. -/
theorem c9_empty_input_is_noop :
    ∀ (store : List Sheets.Row) (today : String),
      Sheets.addToSheet store [] today = ⟨store, 0, 0, []⟩ := by
  intro store today
  rfl

/-- Claim C10: `addToSheet` does not deduplicate within a batch: the added
count is the number of input records (repetitions included) whose link is
absent from the pre-existing link set, and each of them is appended as its
own row, in order; in particular a batch of two records with the same fresh
link is appended twice. -/
theorem c10_no_within_batch_dedup :
    (∀ (store : List Sheets.Row) (jobs : List Job) (today : String),
      (Sheets.addToSheet store jobs today).added =
        (jobs.filter
          (fun j => !((Sheets.existingLinks store).contains j.link))).length ∧
      (Sheets.addToSheet store jobs today).store =
        store ++
          (jobs.filter
            (fun j => !((Sheets.existingLinks store).contains j.link))).map
            (Sheets.jobToRow today)) ∧
    ∀ today : String,
      (Sheets.addToSheet []
        [⟨"A", "R", "L", "https://dup.co", "", "GitHub"⟩,
         ⟨"A", "R", "L", "https://dup.co", "", "GitHub"⟩] today).added = 2 := by
  constructor
  · intro store jobs today
    unfold Sheets.addToSheet
    by_cases h0 : jobs.length = 0
    · have hnil : jobs = [] := List.length_eq_zero.mp h0
      subst hnil
      simp
    · simp only [if_neg h0]
      by_cases h1 :
          (jobs.filter
            (fun j => !((Sheets.existingLinks store).contains j.link))).length = 0
      · rw [if_pos h1]
        have hnil := List.length_eq_zero.mp h1
        rw [hnil]
        simp [h1]
      · rw [if_neg h1]
        exact ⟨rfl, rfl⟩
  · intro today
    rfl

/-- Claim C7 counterexample: for a row whose first alias column
`"Application Link"` is present with an empty value and whose second alias
`"Link"` holds `"X"`, the value used for deduplication is `"X"`, not the
first-present alias value `""` that the claim prescribes. -/
theorem c7_counterexample :
    Sheets.existingLinks [[("Application Link", ""), ("Link", "X")]] = ["X"] ∧
    Sheets.firstAliasValue [("Application Link", ""), ("Link", "X")] = some "" ∧
    ("X" : String) ≠ "" := by
  refine ⟨by rfl, by rfl, by decide⟩

/-- Claim C7 (amended): the existing-link value a row contributes is the
value of the first alias in the ordered list whose value is present and
non-empty; a row all of whose alias values are absent or empty contributes
nothing to the deduplication set. -/
theorem c7_amended_first_nonempty_alias :
    ∀ r : Sheets.Row,
      Sheets.existingLinks [r] = (Sheets.firstNonEmptyAlias r).toList := by
  intro r
  simp only [Sheets.existingLinks, Sheets.chainLink, Sheets.firstNonEmptyAlias,
    Sheets.linkAliases, Sheets.jsOr, Sheets.truthy, List.findSome?_cons]
  cases h1 : Sheets.rowGet r "Application Link" with
  | some v1 =>
    by_cases hv1 : v1 = "" <;>
      cases h2 : Sheets.rowGet r "Link" with
      | some v2 =>
        by_cases hv2 : v2 = "" <;>
          cases h3 : Sheets.rowGet r "link" with
          | some v3 =>
            by_cases hv3 : v3 = "" <;>
              cases h4 : Sheets.rowGet r "URL" with
              | some v4 =>
                by_cases hv4 : v4 = "" <;>
                  cases h5 : Sheets.rowGet r "url" with
                  | some v5 => by_cases hv5 : v5 = "" <;> simp_all
                  | none => simp_all
              | none =>
                cases h5 : Sheets.rowGet r "url" with
                | some v5 => by_cases hv5 : v5 = "" <;> simp_all
                | none => simp_all
          | none =>
            cases h4 : Sheets.rowGet r "URL" with
            | some v4 =>
              by_cases hv4 : v4 = "" <;>
                cases h5 : Sheets.rowGet r "url" with
                | some v5 => by_cases hv5 : v5 = "" <;> simp_all
                | none => simp_all
            | none =>
              cases h5 : Sheets.rowGet r "url" with
              | some v5 => by_cases hv5 : v5 = "" <;> simp_all
              | none => simp_all
      | none =>
        cases h3 : Sheets.rowGet r "link" with
        | some v3 =>
          by_cases hv3 : v3 = "" <;>
            cases h4 : Sheets.rowGet r "URL" with
            | some v4 =>
              by_cases hv4 : v4 = "" <;>
                cases h5 : Sheets.rowGet r "url" with
                | some v5 => by_cases hv5 : v5 = "" <;> simp_all
                | none => simp_all
            | none =>
              cases h5 : Sheets.rowGet r "url" with
              | some v5 => by_cases hv5 : v5 = "" <;> simp_all
              | none => simp_all
        | none =>
          cases h4 : Sheets.rowGet r "URL" with
          | some v4 =>
            by_cases hv4 : v4 = "" <;>
              cases h5 : Sheets.rowGet r "url" with
              | some v5 => by_cases hv5 : v5 = "" <;> simp_all
              | none => simp_all
          | none =>
            cases h5 : Sheets.rowGet r "url" with
            | some v5 => by_cases hv5 : v5 = "" <;> simp_all
            | none => simp_all
  | none =>
    cases h2 : Sheets.rowGet r "Link" with
    | some v2 =>
      by_cases hv2 : v2 = "" <;>
        cases h3 : Sheets.rowGet r "link" with
        | some v3 =>
          by_cases hv3 : v3 = "" <;>
            cases h4 : Sheets.rowGet r "URL" with
            | some v4 =>
              by_cases hv4 : v4 = "" <;>
                cases h5 : Sheets.rowGet r "url" with
                | some v5 => by_cases hv5 : v5 = "" <;> simp_all
                | none => simp_all
            | none =>
              cases h5 : Sheets.rowGet r "url" with
              | some v5 => by_cases hv5 : v5 = "" <;> simp_all
              | none => simp_all
        | none =>
          cases h4 : Sheets.rowGet r "URL" with
          | some v4 =>
            by_cases hv4 : v4 = "" <;>
              cases h5 : Sheets.rowGet r "url" with
              | some v5 => by_cases hv5 : v5 = "" <;> simp_all
              | none => simp_all
          | none =>
            cases h5 : Sheets.rowGet r "url" with
            | some v5 => by_cases hv5 : v5 = "" <;> simp_all
            | none => simp_all
    | none =>
      cases h3 : Sheets.rowGet r "link" with
      | some v3 =>
        by_cases hv3 : v3 = "" <;>
          cases h4 : Sheets.rowGet r "URL" with
          | some v4 =>
            by_cases hv4 : v4 = "" <;>
              cases h5 : Sheets.rowGet r "url" with
              | some v5 => by_cases hv5 : v5 = "" <;> simp_all
              | none => simp_all
          | none =>
            cases h5 : Sheets.rowGet r "url" with
            | some v5 => by_cases hv5 : v5 = "" <;> simp_all
            | none => simp_all
      | none =>
        cases h4 : Sheets.rowGet r "URL" with
        | some v4 =>
          by_cases hv4 : v4 = "" <;>
            cases h5 : Sheets.rowGet r "url" with
            | some v5 => by_cases hv5 : v5 = "" <;> simp_all
            | none => simp_all
        | none =>
          cases h5 : Sheets.rowGet r "url" with
          | some v5 => by_cases hv5 : v5 = "" <;> simp_all
          | none => simp_all

theorem Sheets.chainLink_jobToRow (today : String) (j : Job)
    (h : j.link ≠ "") :
    Sheets.chainLink (Sheets.jobToRow today j) = some j.link := by
  have hget : Sheets.rowGet (Sheets.jobToRow today j) "Application Link" =
      some j.link := rfl
  simp [Sheets.chainLink, Sheets.jsOr, Sheets.truthy, hget, h]

theorem Sheets.existingLinks_jobRows (today : String) (jobs : List Job)
    (h : ∀ j ∈ jobs, j.link ≠ "") :
    Sheets.existingLinks (jobs.map (Sheets.jobToRow today)) =
      jobs.map Job.link := by
  induction jobs with
  | nil => rfl
  | cons j js ih =>
    have hj : j.link ≠ "" := h j (List.mem_cons_self j js)
    simp only [List.map_cons, Sheets.existingLinks,
      Sheets.chainLink_jobToRow today j hj]
    rw [if_neg hj]
    rw [ih (fun k hk => h k (List.mem_cons_of_mem j hk))]

/-- Claim C6: `addToSheet` is idempotent on `link`.  For a non-empty job
list (of JobRecords, whose links are non-empty by the data-model invariant)
whose links are all absent from the store's existing-link set, the first
call adds every job and reports no duplicates, and a second call with the
same list adds nothing and reports every job as a duplicate. -/
theorem c6_idempotent_on_link (store : List Sheets.Row) (jobs : List Job)
    (today today2 : String) (hne : jobs ≠ [])
    (hlinks : ∀ j ∈ jobs, j.link ≠ "")
    (hnew : ∀ j ∈ jobs, j.link ∉ Sheets.existingLinks store) :
    (Sheets.addToSheet store jobs today).added = jobs.length ∧
    (Sheets.addToSheet store jobs today).duplicates = 0 ∧
    (Sheets.addToSheet (Sheets.addToSheet store jobs today).store jobs
      today2).added = 0 ∧
    (Sheets.addToSheet (Sheets.addToSheet store jobs today).store jobs
      today2).duplicates = jobs.length := by
  have h0 : ¬ jobs.length = 0 := by
    intro h
    exact hne (List.length_eq_zero.mp h)
  have hkeep : jobs.filter
      (fun j => !((Sheets.existingLinks store).contains j.link)) = jobs := by
    rw [List.filter_eq_self]
    intro j hj
    simp only [List.contains, List.elem_eq_mem, Bool.not_eq_true',
      decide_eq_false_iff_not]
    exact hnew j hj
  have hfirst : Sheets.addToSheet store jobs today =
      ⟨store ++ jobs.map (Sheets.jobToRow today), jobs.length, 0,
        [Sheets.Effect.getRows,
         Sheets.Effect.addRows (jobs.map (Sheets.jobToRow today))]⟩ := by
    unfold Sheets.addToSheet
    rw [if_neg h0]
    simp only [hkeep]
    rw [if_neg h0]
    simp
  have hstore2 : Sheets.existingLinks
      (store ++ jobs.map (Sheets.jobToRow today)) =
      Sheets.existingLinks store ++ jobs.map Job.link := by
    rw [Sheets.existingLinks_append,
      Sheets.existingLinks_jobRows today jobs hlinks]
  have hdrop : jobs.filter
      (fun j => !((Sheets.existingLinks
        (store ++ jobs.map (Sheets.jobToRow today))).contains j.link)) = [] := by
    rw [List.filter_eq_nil_iff]
    intro j hj
    simp only [hstore2, List.contains, List.elem_eq_mem, Bool.not_eq_true',
      decide_eq_false_iff_not, not_not, List.mem_append, List.mem_map]
    exact Or.inr ⟨j, hj, rfl⟩
  have hsecond : Sheets.addToSheet
      (store ++ jobs.map (Sheets.jobToRow today)) jobs today2 =
      ⟨store ++ jobs.map (Sheets.jobToRow today), 0, jobs.length,
        [Sheets.Effect.getRows]⟩ := by
    unfold Sheets.addToSheet
    rw [if_neg h0]
    simp only [hdrop]
    simp
  rw [hfirst]
  refine ⟨rfl, rfl, ?_, ?_⟩ <;> rw [hsecond]

/-- Claim C6 witness: a concrete one-element instance of the idempotence
theorem. -/
theorem c6_witness :
    (Sheets.addToSheet []
      [⟨"Acme", "SWE", "NYC", "https://x.co", "", "GitHub"⟩] "d1").added = 1 ∧
    (Sheets.addToSheet []
      [⟨"Acme", "SWE", "NYC", "https://x.co", "", "GitHub"⟩] "d1").duplicates = 0 ∧
    (Sheets.addToSheet
      (Sheets.addToSheet []
        [⟨"Acme", "SWE", "NYC", "https://x.co", "", "GitHub"⟩] "d1").store
      [⟨"Acme", "SWE", "NYC", "https://x.co", "", "GitHub"⟩] "d2").added = 0 ∧
    (Sheets.addToSheet
      (Sheets.addToSheet []
        [⟨"Acme", "SWE", "NYC", "https://x.co", "", "GitHub"⟩] "d1").store
      [⟨"Acme", "SWE", "NYC", "https://x.co", "", "GitHub"⟩] "d2").duplicates = 1 :=
  c6_idempotent_on_link []
    [⟨"Acme", "SWE", "NYC", "https://x.co", "", "GitHub"⟩] "d1" "d2"
    (by decide) (by decide) (by decide)

theorem mem_runRows (P : Job → Prop)
    (step : String → List String → String × Option Job)
    (hstep : ∀ st c st2 j, step st c = (st2, some j) → P j) :
    ∀ (st : String) (rows : List (List String)) (j : Job),
      j ∈ runRows step st rows → P j := by
  intro st rows
  induction rows generalizing st with
  | nil => intro j hj; simp [runRows] at hj
  | cons c rs ih =>
    intro j hj
    simp only [runRows] at hj
    rcases hpair : step st c with ⟨st2, o⟩
    rw [hpair] at hj
    cases o with
    | none => exact ih st2 j hj
    | some j2 =>
      rcases List.mem_cons.1 hj with h | h
      · rw [h]
        exact hstep st c st2 j2 hpair
      · exact ih st2 j h

theorem runState_spec (step : String → List String → String × Option Job)
    (qual : List String → Bool) (ex : List String → String)
    (hstep : ∀ st c, (step st c).1 = if qual c = true then ex c else st) :
    ∀ (rows : List (List String)) (st : String),
      runState step st rows =
        match rows.reverse.find? qual with
        | some c => ex c
        | none => st := by
  intro rows
  induction rows with
  | nil => intro st; rfl
  | cons c rs ih =>
    intro st
    have h1 : runState step st (c :: rs) = runState step ((step st c).1) rs := rfl
    rw [h1, ih ((step st c).1), List.reverse_cons, List.find?_append]
    cases hf : rs.reverse.find? qual with
    | some d => simp [hf, Option.orElse]
    | none =>
      simp only [hf, Option.orElse, Option.none_orElse]
      by_cases hq : qual c = true
      · simp [List.find?, hq, hstep]
      · have hqf : qual c = false := by
          cases h : qual c
          · rfl
          · exact absurd h hq
        simp [List.find?, hqf, hstep, hq]

theorem GH.processCells_short_html (st : String) (c : List String)
    (h : c.length < 4) : GH.processCells st c = (st, none) := by
  unfold GH.processCells
  rw [if_pos h]

theorem GHMD.processCells_short_md (st : String) (c : List String)
    (h : c.length < 4) : GHMD.processCells st c = (st, none) := by
  unfold GHMD.processCells
  rw [if_pos h]

theorem GH.isCont_iff_html (c : List String) :
    GH.isCont c = true ↔
      (GH.extractCompanyName (c.getD 0 "") = "↳" ∨
       GH.extractCompanyName (c.getD 0 "") = "") := by
  simp [GH.isCont, GH.extractedCompany]

theorem GHMD.isCont_iff_md (c : List String) :
    GHMD.isCont c = true ↔
      (GHMD.extractCompanyName (c.getD 0 "") = "↳" ∨
       GHMD.extractCompanyName (c.getD 0 "") = "") := by
  simp [GHMD.isCont, GHMD.extractedCompany]

theorem GH.processCells_fst_html (st : String) (c : List String) :
    (GH.processCells st c).1 =
      if (decide (4 ≤ c.length) && !GH.isCont c) = true then
        GH.extractedCompany c
      else st := by
  by_cases h : c.length < 4
  · rw [GH.processCells_short_html st c h]
    have h4 : decide (4 ≤ c.length) = false := by
      simpa using (by omega : ¬ 4 ≤ c.length)
    simp [h4]
  · have h4 : decide (4 ≤ c.length) = true := by
      simpa using (by omega : 4 ≤ c.length)
    by_cases hcont : GH.isCont c = true
    · have hc := (GH.isCont_iff_html c).mp hcont
      simp only [GH.processCells, if_neg h, if_pos hc, hcont, h4,
        Bool.not_true, Bool.and_false, Bool.false_eq_true, if_false]
      rw [apply_ite Prod.fst]
      simp
    · have hc : ¬ (GH.extractCompanyName (c.getD 0 "") = "↳" ∨
          GH.extractCompanyName (c.getD 0 "") = "") :=
        fun hx => hcont ((GH.isCont_iff_html c).mpr hx)
      have hcf : GH.isCont c = false := by
        cases hb : GH.isCont c
        · rfl
        · exact absurd hb hcont
      simp only [GH.processCells, if_neg h, if_neg hc, hcf, h4,
        Bool.not_false, Bool.and_true, if_true]
      rw [apply_ite Prod.fst]
      simp [GH.extractedCompany]

theorem GHMD.processCells_fst_md (st : String) (c : List String) :
    (GHMD.processCells st c).1 =
      if (decide (4 ≤ c.length) && !GHMD.isCont c) = true then
        GHMD.extractedCompany c
      else st := by
  by_cases h : c.length < 4
  · rw [GHMD.processCells_short_md st c h]
    have h4 : decide (4 ≤ c.length) = false := by
      simpa using (by omega : ¬ 4 ≤ c.length)
    simp [h4]
  · have h4 : decide (4 ≤ c.length) = true := by
      simpa using (by omega : 4 ≤ c.length)
    by_cases hcont : GHMD.isCont c = true
    · have hc := (GHMD.isCont_iff_md c).mp hcont
      simp only [GHMD.processCells, if_neg h, if_pos hc, hcont, h4,
        Bool.not_true, Bool.and_false, Bool.false_eq_true, if_false]
      rw [apply_ite Prod.fst]
      simp
    · have hc : ¬ (GHMD.extractCompanyName (c.getD 0 "") = "↳" ∨
          GHMD.extractCompanyName (c.getD 0 "") = "") :=
        fun hx => hcont ((GHMD.isCont_iff_md c).mpr hx)
      have hcf : GHMD.isCont c = false := by
        cases hb : GHMD.isCont c
        · rfl
        · exact absurd hb hcont
      simp only [GHMD.processCells, if_neg h, if_neg hc, hcf, h4,
        Bool.not_false, Bool.and_true, if_true]
      rw [apply_ite Prod.fst]
      simp [GHMD.extractedCompany]

theorem GH.processCells_emit_html (st st2 : String) (c : List String) (j : Job)
    (h : GH.processCells st c = (st2, some j)) :
    j.company = st2 ∧ j.company ≠ "" ∧ j.role ≠ "" ∧ j.link ≠ "" ∧
      j.link ≠ "🔒" := by
  simp only [GH.processCells] at h
  split at h
  · exact absurd h (by simp)
  · split at h
    all_goals
      split at h
      · exact absurd h (by simp)
      · rename_i hguard
        rw [Prod.mk.injEq, Option.some.injEq] at h
        obtain ⟨hst, hj⟩ := h
        push_neg at hguard
        subst hst
        subst hj
        exact ⟨rfl, hguard.1, hguard.2.1, hguard.2.2.1, hguard.2.2.2⟩

theorem GHMD.processCells_emit_md (st st2 : String) (c : List String) (j : Job)
    (h : GHMD.processCells st c = (st2, some j)) :
    j.company = st2 ∧ j.company ≠ "" ∧ j.role ≠ "" ∧ j.link ≠ "" ∧
      j.link ≠ "🔒" := by
  simp only [GHMD.processCells] at h
  split at h
  · exact absurd h (by simp)
  · split at h
    all_goals
      split at h
      · exact absurd h (by simp)
      · rename_i hguard
        rw [Prod.mk.injEq, Option.some.injEq] at h
        obtain ⟨hst, hj⟩ := h
        push_neg at hguard
        subst hst
        subst hj
        exact ⟨rfl, hguard.1, hguard.2.1, hguard.2.2.1, hguard.2.2.2.1⟩

theorem GHMD.parseLines_eq_runRows :
    ∀ (ls : List String) (st : String) (inTable : Bool),
      GHMD.parseLines st inTable ls =
        runRows GHMD.processCells st (GHMD.mdTableRows inTable ls) := by
  intro ls
  induction ls with
  | nil => intro st it; rfl
  | cons l ls ih =>
    intro st it
    simp only [GHMD.parseLines, GHMD.mdTableRows]
    by_cases h1 : GHMD.headerLine l = true
    · simp [h1, ih]
    · simp only [h1, Bool.false_eq_true, if_false]
      by_cases h2 : GHMD.separatorLine l = true
      · simp [h2, ih]
      · simp only [h2, Bool.false_eq_true, if_false]
        by_cases h3 : (it && !GHMD.pipeStart l) = true
        · simp [h3, runRows]
        · simp only [h3, Bool.false_eq_true, if_false]
          by_cases h4 : (!it || !GHMD.pipeStart l) = true
          · simp [h4, ih]
          · simp only [h4, Bool.false_eq_true, if_false, runRows]
            rcases hp : GHMD.processCells st (GHMD.mdCells l) with ⟨lc, o⟩
            cases o with
            | none => exact ih lc it
            | some j => exact congrArg (fun t => j :: t) (ih lc it)

theorem GH.runState_lastNonCont_html (rows : List (List String)) :
    runState GH.processCells "" rows = GH.lastNonCont rows := by
  rw [runState_spec GH.processCells
    (fun c => decide (4 ≤ c.length) && !GH.isCont c) GH.extractedCompany
    GH.processCells_fst_html rows ""]
  unfold GH.lastNonCont
  cases rows.reverse.find? (fun c => decide (4 ≤ c.length) && !GH.isCont c) with
  | none => rfl
  | some c => rfl

theorem GHMD.runState_lastNonCont_md (rows : List (List String)) :
    runState GHMD.processCells "" rows = GHMD.lastNonCont rows := by
  rw [runState_spec GHMD.processCells
    (fun c => decide (4 ≤ c.length) && !GHMD.isCont c) GHMD.extractedCompany
    GHMD.processCells_fst_md rows ""]
  unfold GHMD.lastNonCont
  cases rows.reverse.find? (fun c => decide (4 ≤ c.length) && !GHMD.isCont c) with
  | none => rfl
  | some c => rfl

/-- Claim C1: a `JobRecord` is emitted only when company, role and link are
all non-empty and the link is not the closed-application lock sentinel, in
both dialects; in particular a row whose application cell is the lock
sentinel emits no record. -/
theorem c1_row_acceptance :
    (∀ (markdown : String) (j : Job), j ∈ GH.parseMarkdownTable markdown →
      j.company ≠ "" ∧ j.role ≠ "" ∧ j.link ≠ "" ∧ j.link ≠ "🔒") ∧
    (∀ (markdown : String) (j : Job), j ∈ GHMD.parseMarkdownTable markdown →
      j.company ≠ "" ∧ j.role ≠ "" ∧ j.link ≠ "" ∧ j.link ≠ "🔒") ∧
    (∀ (st : String) (cells : List String), cells.getD 3 "" = "🔒" →
      (GH.processCells st cells).2 = none) ∧
    (∀ (st : String) (cells : List String), cells.getD 3 "" = "🔒" →
      (GHMD.processCells st cells).2 = none) := by
  refine ⟨?_, ?_, ?_, ?_⟩
  · intro markdown j hj
    exact mem_runRows
      (fun j => j.company ≠ "" ∧ j.role ≠ "" ∧ j.link ≠ "" ∧ j.link ≠ "🔒")
      GH.processCells
      (fun st c st2 j h => (GH.processCells_emit_html st st2 c j h).2)
      "" (GH.rowsOf markdown) j hj
  · intro markdown j hj
    rw [GHMD.parseMarkdownTable, GHMD.parseLines_eq_runRows] at hj
    exact mem_runRows
      (fun j => j.company ≠ "" ∧ j.role ≠ "" ∧ j.link ≠ "" ∧ j.link ≠ "🔒")
      GHMD.processCells
      (fun st c st2 j h => (GHMD.processCells_emit_md st st2 c j h).2)
      _ _ j hj
  · intro st cells h4
    by_cases hlen : cells.length < 4
    · rw [GH.processCells_short_html st cells hlen]
    · have hlink : GH.extractApplicationLink "🔒" = "" := rfl
      rw [List.getD_eq_getElem?_getD] at h4
      simp [GH.processCells, hlen, h4, hlink]
  · intro st cells h4
    by_cases hlen : cells.length < 4
    · rw [GHMD.processCells_short_md st cells hlen]
    · have hlock : containsSubstr "🔒" "🔒" = true := rfl
      rw [List.getD_eq_getElem?_getD] at h4
      simp [GHMD.processCells, hlen, h4, hlock]

/-- Claim C1 witness: the concrete record parsed from a one-row document
satisfies the acceptance invariant, and concrete lock-sentinel rows emit no
record in either dialect. -/
theorem c1_witness :
    ((⟨"Acme", "SWE", "NYC", "https://x.co", "Jun 1", "GitHub"⟩ : Job).company ≠ "" ∧
     (⟨"Acme", "SWE", "NYC", "https://x.co", "Jun 1", "GitHub"⟩ : Job).role ≠ "" ∧
     (⟨"Acme", "SWE", "NYC", "https://x.co", "Jun 1", "GitHub"⟩ : Job).link ≠ "" ∧
     (⟨"Acme", "SWE", "NYC", "https://x.co", "Jun 1", "GitHub"⟩ : Job).link ≠ "🔒") ∧
    (GH.processCells "" ["A", "B", "C", "🔒"]).2 = none ∧
    (GHMD.processCells "" ["A", "B", "C", "🔒"]).2 = none :=
  ⟨c1_row_acceptance.1
      "<tr><td>Acme</td><td>SWE</td><td>NYC</td><td><a href=\"https://x.co\">go</a></td><td>Jun 1</td></tr>"
      ⟨"Acme", "SWE", "NYC", "https://x.co", "Jun 1", "GitHub"⟩ (by decide),
   c1_row_acceptance.2.2.1 "" ["A", "B", "C", "🔒"] (by decide),
   c1_row_acceptance.2.2.2 "" ["A", "B", "C", "🔒"] (by decide)⟩

/-- Claim C8: a row that yields fewer than four cells is skipped without
changing the parser state, and parsing continues with the subsequent rows,
in both dialects (for the markdown dialect also stated on the line loop). -/
theorem c8_short_row_skipped :
    (∀ (st : String) (cells : List String), cells.length < 4 →
      GH.processCells st cells = (st, none)) ∧
    (∀ (st : String) (cells : List String), cells.length < 4 →
      GHMD.processCells st cells = (st, none)) ∧
    (∀ (st : String) (cells : List String) (rows : List (List String)),
      cells.length < 4 →
      runRows GH.processCells st (cells :: rows) =
        runRows GH.processCells st rows) ∧
    (∀ (st : String) (cells : List String) (rows : List (List String)),
      cells.length < 4 →
      runRows GHMD.processCells st (cells :: rows) =
        runRows GHMD.processCells st rows) ∧
    (∀ (st : String) (inTable : Bool) (l : String) (ls : List String),
      GHMD.headerLine l = false → GHMD.separatorLine l = false →
      GHMD.pipeStart l = true → (GHMD.mdCells l).length < 4 →
      GHMD.parseLines st inTable (l :: ls) = GHMD.parseLines st inTable ls) := by
  refine ⟨GH.processCells_short_html, GHMD.processCells_short_md, ?_, ?_, ?_⟩
  · intro st cells rows h
    simp only [runRows, GH.processCells_short_html st cells h]
  · intro st cells rows h
    simp only [runRows, GHMD.processCells_short_md st cells h]
  · intro st it l ls hh hs hp hc
    cases it with
    | false => simp [GHMD.parseLines, hh, hs, hp]
    | true =>
      simp [GHMD.parseLines, hh, hs, hp,
        GHMD.processCells_short_md st (GHMD.mdCells l) hc]

/-- Claim C8 witness: concrete short rows are skipped and parsing continues,
in both dialects. -/
theorem c8_witness :
    GH.processCells "X" ["A", "B"] = ("X", none) ∧
    GHMD.processCells "X" ["A", "B"] = ("X", none) ∧
    runRows GH.processCells "X"
        [["A", "B"], ["Acme", "R", "L", "<a href=\"https://q.co\">k</a>"]] =
      runRows GH.processCells "X"
        [["Acme", "R", "L", "<a href=\"https://q.co\">k</a>"]] ∧
    GHMD.parseLines "X" true ["| okay |", "| A | B | C | [k](https://q.co) |"] =
      GHMD.parseLines "X" true ["| A | B | C | [k](https://q.co) |"] :=
  ⟨c8_short_row_skipped.1 "X" ["A", "B"] (by decide),
   c8_short_row_skipped.2.1 "X" ["A", "B"] (by decide),
   c8_short_row_skipped.2.2.1 "X" ["A", "B"]
     [["Acme", "R", "L", "<a href=\"https://q.co\">k</a>"]] (by decide),
   c8_short_row_skipped.2.2.2.2 "X" true "| okay |"
     ["| A | B | C | [k](https://q.co) |"]
     (by decide) (by decide) (by decide) (by decide)⟩

/-- Claim C3: a row whose company cell extracts to the continuation arrow or
to the empty string takes, as the company of any record it emits, the
nearest preceding non-continuation extracted company in document order; any
other row makes its extracted company the new remembered company.  Stated
for both dialects over the row fold started from the initial empty state;
the first conjunct grounds the markdown dialect's line loop in that fold. -/
theorem c3_continuation_company :
    (∀ (ls : List String) (st : String) (inTable : Bool),
      GHMD.parseLines st inTable ls =
        runRows GHMD.processCells st (GHMD.mdTableRows inTable ls)) ∧
    (∀ (prevRows : List (List String)) (cells : List String)
        (st2 : String) (j : Job),
      4 ≤ cells.length → GH.isCont cells = true →
      GH.processCells (runState GH.processCells "" prevRows) cells =
        (st2, some j) →
      j.company = GH.lastNonCont prevRows) ∧
    (∀ (prevRows : List (List String)) (cells : List String),
      4 ≤ cells.length → GH.isCont cells = false →
      runState GH.processCells "" (prevRows ++ [cells]) =
        GH.extractedCompany cells) ∧
    (∀ (prevRows : List (List String)) (cells : List String)
        (st2 : String) (j : Job),
      4 ≤ cells.length → GHMD.isCont cells = true →
      GHMD.processCells (runState GHMD.processCells "" prevRows) cells =
        (st2, some j) →
      j.company = GHMD.lastNonCont prevRows) ∧
    (∀ (prevRows : List (List String)) (cells : List String),
      4 ≤ cells.length → GHMD.isCont cells = false →
      runState GHMD.processCells "" (prevRows ++ [cells]) =
        GHMD.extractedCompany cells) := by
  refine ⟨GHMD.parseLines_eq_runRows, ?_, ?_, ?_, ?_⟩
  · intro prev cells st2 j h4 hcont hp
    have hemit := GH.processCells_emit_html _ _ _ _ hp
    have hfst := GH.processCells_fst_html (runState GH.processCells "" prev) cells
    rw [hp] at hfst
    simp only [hcont, Bool.not_true, Bool.and_false, Bool.false_eq_true,
      if_false] at hfst
    rw [hemit.1, hfst, GH.runState_lastNonCont_html]
  · intro prev cells h4 hcont
    rw [runState_spec GH.processCells
      (fun c => decide (4 ≤ c.length) && !GH.isCont c) GH.extractedCompany
      GH.processCells_fst_html (prev ++ [cells]) ""]
    rw [List.reverse_append]
    have hq : (decide (4 ≤ cells.length) && !GH.isCont cells) = true := by
      simp [hcont, h4]
    simp [List.find?_cons_of_pos, hq]
  · intro prev cells st2 j h4 hcont hp
    have hemit := GHMD.processCells_emit_md _ _ _ _ hp
    have hfst := GHMD.processCells_fst_md (runState GHMD.processCells "" prev) cells
    rw [hp] at hfst
    simp only [hcont, Bool.not_true, Bool.and_false, Bool.false_eq_true,
      if_false] at hfst
    rw [hemit.1, hfst, GHMD.runState_lastNonCont_md]
  · intro prev cells h4 hcont
    rw [runState_spec GHMD.processCells
      (fun c => decide (4 ≤ c.length) && !GHMD.isCont c) GHMD.extractedCompany
      GHMD.processCells_fst_md (prev ++ [cells]) ""]
    rw [List.reverse_append]
    have hq : (decide (4 ≤ cells.length) && !GHMD.isCont cells) = true := by
      simp [hcont, h4]
    simp [List.find?_cons_of_pos, hq]

/-- Claim C3 witness: a concrete continuation row inherits the company of
the preceding row, and a concrete non-continuation row becomes the new
remembered company, in both dialects. -/
theorem c3_witness :
    (⟨"Acme", "Dev", "Remote", "https://y.co", "", "GitHub"⟩ : Job).company =
      GH.lastNonCont [["Acme", "SWE", "NYC", "<a href=\"https://x.co\">go</a>"]] ∧
    (⟨"Acme", "Dev", "Remote", "https://y.co", "", "GitHub"⟩ : Job).company =
      GHMD.lastNonCont [["Acme", "SWE", "NYC", "[go](https://x.co)"]] ∧
    runState GH.processCells ""
        ([] ++ [["Acme", "SWE", "NYC", "<a href=\"https://x.co\">go</a>"]]) =
      GH.extractedCompany ["Acme", "SWE", "NYC", "<a href=\"https://x.co\">go</a>"] ∧
    runState GHMD.processCells ""
        ([] ++ [["Acme", "SWE", "NYC", "[go](https://x.co)"]]) =
      GHMD.extractedCompany ["Acme", "SWE", "NYC", "[go](https://x.co)"] :=
  ⟨c3_continuation_company.2.1
      [["Acme", "SWE", "NYC", "<a href=\"https://x.co\">go</a>"]]
      ["↳", "Dev", "Remote", "<a href=\"https://y.co\">go</a>"] "Acme"
      ⟨"Acme", "Dev", "Remote", "https://y.co", "", "GitHub"⟩
      (by decide) (by decide) (by decide),
   c3_continuation_company.2.2.2.1
      [["Acme", "SWE", "NYC", "[go](https://x.co)"]]
      ["↳", "Dev", "Remote", "[go](https://y.co)"] "Acme"
      ⟨"Acme", "Dev", "Remote", "https://y.co", "", "GitHub"⟩
      (by decide) (by decide) (by decide),
   c3_continuation_company.2.2.1 []
      ["Acme", "SWE", "NYC", "<a href=\"https://x.co\">go</a>"]
      (by decide) (by decide),
   c3_continuation_company.2.2.2.2 []
      ["Acme", "SWE", "NYC", "[go](https://x.co)"]
      (by decide) (by decide)⟩

theorem GH.pickHref_eq (hs : List String) :
    GH.pickHref hs =
      (hs.find? (fun h => !(containsSubstr h "simplify.jobs"))).map stripUtm := by
  induction hs with
  | nil => rfl
  | cons h hs ih =>
    cases hh : containsSubstr h "simplify.jobs" with
    | true => simp [GH.pickHref, List.find?_cons, hh, ih]
    | false => simp [GH.pickHref, List.find?_cons, hh]

/-- Claim C2 counterexample: in the markdown dialect the extractor returns
the first anchor href even when it points at the aggregator host and a
direct link follows (no aggregator preference), and in the HTML dialect the
aggregator fallback is returned with its tracking suffix intact (no
stripping). -/
theorem c2_counterexample :
    anchorHrefs "<a href=\"https://simplify.jobs/a\"><a href=\"https://d.co/b\">" =
      ["https://simplify.jobs/a", "https://d.co/b"] ∧
    containsSubstr "https://simplify.jobs/a" "simplify.jobs" = true ∧
    containsSubstr "https://d.co/b" "simplify.jobs" = false ∧
    containsSubstr
      "<a href=\"https://simplify.jobs/a\"><a href=\"https://d.co/b\">" "🔒" =
      false ∧
    GHMD.extractApplicationLink
      "<a href=\"https://simplify.jobs/a\"><a href=\"https://d.co/b\">" =
      "https://simplify.jobs/a" ∧
    ("https://simplify.jobs/a" : String) ≠ "https://d.co/b" ∧
    GH.extractApplicationLink "<a href=\"https://simplify.jobs/a?utm_source=x\">" =
      "https://simplify.jobs/a?utm_source=x" ∧
    containsSubstr "https://simplify.jobs/a?utm_source=x" "?utm_source" = true :=
  ⟨rfl, rfl, rfl, rfl, rfl, by decide, rfl, rfl⟩

/-- Claim C2 (amended): in the HTML dialect, link extraction returns the
first anchor href not pointing at simplify.jobs with any `?utm_source`
suffix stripped, and falls back to the first anchor href verbatim (without
stripping) when only aggregator links exist; in the markdown dialect, a cell
containing the lock sentinel yields the sentinel, and otherwise extraction
returns the first anchor href, else the first markdown-link url, each
utm-stripped, with no aggregator preference. -/
theorem c2_amended_link_extraction :
    (∀ cell : String, GH.extractApplicationLink cell =
      match (anchorHrefs cell).find?
          (fun h => !(containsSubstr h "simplify.jobs")) with
      | some h => stripUtm h
      | none => ((anchorHrefs cell).head?).getD "") ∧
    (∀ cell : String, containsSubstr cell "🔒" = true →
      GHMD.extractApplicationLink cell = "🔒") ∧
    (∀ (cell h : String), containsSubstr cell "🔒" = false →
      firstAnchorHref cell = some h →
      GHMD.extractApplicationLink cell = stripUtm h) ∧
    (∀ (cell t u : String), containsSubstr cell "🔒" = false →
      firstAnchorHref cell = none → firstMdLink cell = some (t, u) →
      GHMD.extractApplicationLink cell = stripUtm u) ∧
    (∀ cell : String, containsSubstr cell "🔒" = false →
      firstAnchorHref cell = none → firstMdLink cell = none →
      GHMD.extractApplicationLink cell = "") := by
  refine ⟨?_, ?_, ?_, ?_, ?_⟩
  · intro cell
    unfold GH.extractApplicationLink
    rw [GH.pickHref_eq]
    cases hf : (anchorHrefs cell).find?
        (fun h => !(containsSubstr h "simplify.jobs")) with
    | some h => rfl
    | none =>
      cases ha : anchorHrefs cell with
      | nil => simp [ha]
      | cons h hs => simp [ha]
  · intro cell hs
    simp [GHMD.extractApplicationLink, hs]
  · intro cell h hsent ha
    simp [GHMD.extractApplicationLink, hsent, ha]
  · intro cell t u hsent ha hm
    simp [GHMD.extractApplicationLink, hsent, ha, hm]
  · intro cell hsent ha hm
    simp [GHMD.extractApplicationLink, hsent, ha, hm]

/-- Claim C2 witness: concrete instances of the amended extraction
behaviour for both dialects. -/
theorem c2_witness :
    GH.extractApplicationLink
      "<a href=\"https://simplify.jobs/a\"><a href=\"https://d.co/b?utm_source=z\">" =
      (match (anchorHrefs
          "<a href=\"https://simplify.jobs/a\"><a href=\"https://d.co/b?utm_source=z\">").find?
          (fun h => !(containsSubstr h "simplify.jobs")) with
      | some h => stripUtm h
      | none => ((anchorHrefs
          "<a href=\"https://simplify.jobs/a\"><a href=\"https://d.co/b?utm_source=z\">").head?).getD "") ∧
    GHMD.extractApplicationLink "🔒 closed" = "🔒" ∧
    GHMD.extractApplicationLink "<a href=\"https://d.co/b?utm_source=z\">" =
      stripUtm "https://d.co/b?utm_source=z" ∧
    GHMD.extractApplicationLink "[k](https://q.co?utm_source=a)" =
      stripUtm "https://q.co?utm_source=a" ∧
    GHMD.extractApplicationLink "nothing" = "" :=
  ⟨c2_amended_link_extraction.1
      "<a href=\"https://simplify.jobs/a\"><a href=\"https://d.co/b?utm_source=z\">",
   c2_amended_link_extraction.2.1 "🔒 closed" (by decide),
   c2_amended_link_extraction.2.2.1 "<a href=\"https://d.co/b?utm_source=z\">"
      "https://d.co/b?utm_source=z" (by decide) (by decide),
   c2_amended_link_extraction.2.2.2.1 "[k](https://q.co?utm_source=a)"
      "k" "https://q.co?utm_source=a" (by decide) (by decide) (by decide),
   c2_amended_link_extraction.2.2.2.2 "nothing" (by decide) (by decide) (by decide)⟩

/-- Claim C4 counterexample: the HTML dialect's `cleanText` does not decode
`&apos;` (and does not remove the decorative glyphs), contradicting the
claim that both dialects do. -/
theorem c4_counterexample :
    GH.cleanText "&apos;" = "&apos;" ∧ GH.cleanText "&apos;" ≠ aposStr ∧
    GH.cleanText "🛂" = "🛂" :=
  ⟨rfl, by decide, rfl⟩

/-- Claim C4 (amended): both dialects strip markup tags, decode
`&amp; &lt; &gt; &nbsp;`, collapse whitespace runs and trim — in particular
both map `"A&amp;B"` to `"A&B"` and `"a   b\n c"` to `"a b c"` — but only
the markdown dialect decodes `&apos;`, converts markdown link/bold syntax to
plain text and removes the decorative glyphs; the HTML dialect leaves
`&apos;` and the glyphs untouched. -/
theorem c4_amended_clean_text :
    GH.cleanText "A&amp;B" = "A&B" ∧ GHMD.cleanText "A&amp;B" = "A&B" ∧
    GH.cleanText "a   b\n c" = "a b c" ∧ GHMD.cleanText "a   b\n c" = "a b c" ∧
    GH.cleanText "<b>x</b> y" = "x y" ∧ GHMD.cleanText "<b>x</b> y" = "x y" ∧
    GH.cleanText "1&lt;2 &amp; 3&gt;2&nbsp;ok" = "1<2 & 3>2 ok" ∧
    GHMD.cleanText "1&lt;2 &amp; 3&gt;2&nbsp;ok" = "1<2 & 3>2 ok" ∧
    GHMD.cleanText "&apos;" = aposStr ∧ GH.cleanText "&apos;" = "&apos;" ∧
    GHMD.cleanText "🛂🇺🇸x" = "x" ∧ GH.cleanText "🛂" = "🛂" ∧
    GHMD.cleanText "[A](https://u) **b**" = "A b" :=
  ⟨rfl, rfl, rfl, rfl, rfl, rfl, rfl, rfl, rfl, rfl, rfl, rfl, rfl⟩

/-- Claim C5: `filterInternships` returns the order-preserving subsequence
of records whose role contains (case-insensitively) some fixed role keyword
and whose location contains (case-insensitively) some fixed allowed
location; in particular a record with role `"SOFTWARE ENGINEER"` and
location `"remote"` passes. -/
theorem c5_filter_semantics :
    ∀ jobs : List Job,
      (filterInternships jobs).Sublist jobs ∧
      (∀ j : Job, j ∈ filterInternships jobs ↔
        j ∈ jobs ∧
        (∃ kw ∈ ROLE_KEYWORDS,
          containsSubstr (jsToLower j.role) (jsToLower kw) = true) ∧
        (∃ loc ∈ ALLOWED_LOCATIONS,
          containsSubstr (jsToLower j.location) (jsToLower loc) = true)) ∧
      filterInternships
        [⟨"Acme", "SOFTWARE ENGINEER", "remote", "https://x.co", "", "GitHub"⟩] =
        [⟨"Acme", "SOFTWARE ENGINEER", "remote", "https://x.co", "", "GitHub"⟩] := by
  intro jobs
  refine ⟨List.filter_sublist _, ?_, by decide⟩
  intro j
  rw [filterInternships, List.mem_filter]
  simp [List.any_eq_true]
